import Mathlib

/-!
Verification of the local RAG chatbot's retrieval and indexing core.

The development shallowly embeds the Python modules
`src/core/retrieval.py`, `src/core/indexing.py` and the legacy
`retrieval.py` / `index_documents.py`: collaborator models (embedding
model, FAISS index search, cross-encoder reranker, text splitter) are
abstract functions, machine state (loaded index, on-disk artifact pair)
is explicit, and every embedded operation is an executable Lean
function mirroring the source line by line.
-/

/-- Embedding vectors are modelled as integer lists; only their identity
matters to the claims, never their numeric content. -/
abbrev Vec := List Int

/-- Reranker scores; the source uses floats, but the claims only depend on
a linear order, so an ordered, decidable carrier is used. -/
abbrev Score := Int

/-- A loaded FAISS index, reduced to its observable behaviour at query
time: `search` takes a query embedding and a neighbour count and returns
the list of neighbour positions (FAISS labels, `-1` padding included). -/
structure LoadedIndex where
  search : Vec → Nat → List Int

/-- State of `DocumentRetriever` (src/core/retrieval.py) after
construction: embedding model, optionally loaded index, optionally loaded
chunk store (`documents.pkl`), optional cross-encoder reranker. -/
structure DocumentRetriever where
  embed_model : String → Vec
  index : Option LoadedIndex
  documents : Option (List String)
  reranker : Option (String → String → Score)

/-- The sentinel returned by `retrieve_documents` when no index or chunk
store is loaded (src/core/retrieval.py line 85). -/
def sentinelMsg : String :=
  "Erreur: L\x27index RAG n\x27existe pas. Veuillez indexer des documents avant de poser des questions."

/-- On-disk state of one persisted artifact as seen by `_load_index`:
the file may be missing, present but failing to deserialize, or valid. -/
inductive FileState (α : Type) where
  | missing : FileState α
  | corrupt : FileState α
  | valid : α → FileState α
deriving DecidableEq

/-- `os.path.exists` on the artifact's path. -/
def FileState.isPresent {α : Type} : FileState α → Bool
  | .missing => false
  | _ => true

/-- Deserializing the artifact (`faiss.read_index` / `pickle.load`):
`none` models the read raising an exception. -/
def FileState.load {α : Type} : FileState α → Option α
  | .valid a => some a
  | _ => none

/-- Embeds `DocumentRetriever._load_index` (src/core/retrieval.py lines
47-68): if both files exist, try to read the index and then the chunk
store; any exception resets both slots to `None`; if either file is
missing nothing is loaded. -/
def load_index (fi : FileState LoadedIndex) (fd : FileState (List String)) :
    Option LoadedIndex × Option (List String) :=
  if fi.isPresent && fd.isPresent then
    match fi.load with
    | some i =>
      match fd.load with
      | some d => (some i, some d)
      | none => (none, none)
    | none => (none, none)
  else
    (none, none)

/-- Retriever construction (`__init__` + `_load_models` + `_load_index`). -/
def mkRetriever (embed : String → Vec) (rk : Option (String → String → Score))
    (fi : FileState LoadedIndex) (fd : FileState (List String)) : DocumentRetriever :=
  { embed_model := embed
    index := (load_index fi fd).1
    documents := (load_index fi fd).2
    reranker := rk }

/-- The bound check `0 <= i < len(self.documents)` guarding the list
comprehension in src/core/retrieval.py line 91. -/
def validPos (n : Nat) (i : Int) : Bool :=
  decide (0 ≤ i) && decide (i < (n : Int))

/-- The comprehension `[self.documents[i] for i in I[0] if 0 <= i < len(self.documents)]`
mapping neighbour positions to chunk texts. -/
def candidatesOf (docs : List String) (I0 : List Int) : List String :=
  (I0.filter (validPos docs.length)).map (fun i => docs.getD i.toNat "")

/-- Reranker batch size, hard-coded at src/core/retrieval.py line 98. -/
def batchSize : Nat := 32

/-- Fuel-indexed slicing of a list into consecutive `batchSize`-sized
batches; fuel bounds the recursion and `xs.length` fuel is always
enough, since every step consumes at least one element. -/
def toBatchesAux {α : Type} : Nat → List α → List (List α)
  | 0, _ => []
  | _, [] => []
  | fuel + 1, x :: xs => (x :: xs).take batchSize :: toBatchesAux fuel ((x :: xs).drop batchSize)

/-- The slices `pairs[i:i+batch_size]` for `i in range(0, len(pairs), batch_size)`
(src/core/retrieval.py lines 100-101). -/
def toBatches {α : Type} (xs : List α) : List (List α) :=
  toBatchesAux xs.length xs

/-- `CrossEncoder.predict` on a batch of (query, passage) pairs: one score
per pair, in order. -/
def predict (score : String → String → Score) (pairs : List (String × String)) : List Score :=
  pairs.map (fun p => score p.1 p.2)

/-- The batched scoring loop of src/core/retrieval.py lines 99-103:
`scores` starts empty and is extended with the predictions of each batch. -/
def batchedScores (score : String → String → Score) (pairs : List (String × String)) : List Score :=
  (toBatches pairs).flatMap (predict score)

/-- Stable insertion of a scored element into a descending-sorted list:
the inserted element comes from earlier in the original list, so it
precedes exactly the elements it strictly beats, matching CPython's
stable `sorted(..., key=itemgetter(1), reverse=True)`. -/
def insertDesc {α : Type} (x : α × Score) : List (α × Score) → List (α × Score)
  | [] => [x]
  | y :: l => if y.2 ≤ x.2 then x :: y :: l else y :: insertDesc x l

/-- `sorted(zip(candidates, scores), key=operator.itemgetter(1), reverse=True)`
(src/core/retrieval.py line 106): a stable sort by descending score. -/
def pySortDesc {α : Type} : List (α × Score) → List (α × Score)
  | [] => []
  | x :: l => insertDesc x (pySortDesc l)

/-- Embeds `DocumentRetriever.retrieve_documents` (src/core/retrieval.py
lines 70-111). `multiplier` is the `RETRIEVAL_MULTIPLIER` setting
(default 3). -/
def retrieve_documents (r : DocumentRetriever) (multiplier : Nat)
    (query : String) (top_k : Nat) (rerank : Bool) : List String :=
  match r.index, r.documents with
  | some idx, some docs =>
    let query_embedding := r.embed_model query
    let I0 := idx.search query_embedding (top_k * multiplier)
    let candidates := candidatesOf docs I0
    match r.reranker with
    | some rk =>
      if rerank && !candidates.isEmpty then
        let pairs := candidates.map (fun doc => (query, doc))
        let scores := batchedScores rk pairs
        let ranked := pySortDesc (candidates.zip scores)
        (ranked.map Prod.fst).take top_k
      else
        candidates.take top_k
    | none => candidates.take top_k
  | _, _ => [sentinelMsg]

/-- Claim C1: if the orchestrator failed to load the persisted index or
chunk store at construction (either file missing or failing to
deserialize), then `retrieve_documents` returns exactly the one-element
sentinel list for every query, `top_k` and rerank flag. -/
theorem retrieve_no_index_sentinel
    (embed : String → Vec) (rk : Option (String → String → Score))
    (fi : FileState LoadedIndex) (fd : FileState (List String))
    (multiplier : Nat) (query : String) (top_k : Nat) (rerank : Bool)
    (hfail : fi.isPresent = false ∨ fd.isPresent = false ∨ fi.load = none ∨ fd.load = none) :
    retrieve_documents (mkRetriever embed rk fi fd) multiplier query top_k rerank
      = [sentinelMsg] := by
  have hload : load_index fi fd = (none, none) := by
    rcases hfail with h | h | h | h <;>
      · cases fi <;> cases fd <;>
          simp_all [load_index, FileState.isPresent, FileState.load]
  simp [mkRetriever, hload, retrieve_documents]

/-- Concrete instance of `retrieve_no_index_sentinel`: a fresh orchestrator
with both artifacts missing returns the sentinel. -/
theorem retrieve_no_index_sentinel_witness :
    retrieve_documents
      (mkRetriever (fun _ => ([] : Vec)) none FileState.missing FileState.missing)
      3 "hello" 3 true = [sentinelMsg] :=
  retrieve_no_index_sentinel (fun _ => []) none .missing .missing 3 "hello" 3 true
    (Or.inl rfl)

/-- Claim C10: after construction the loaded vector index and chunk store
are all-or-nothing: every load path leaves either both present or both
absent, so retrieval never runs with an index but no chunk store or
vice versa. -/
theorem load_index_pair_all_or_nothing
    (fi : FileState LoadedIndex) (fd : FileState (List String)) :
    (load_index fi fd).1 = none ↔ (load_index fi fd).2 = none := by
  cases fi <;> cases fd <;>
    simp [load_index, FileState.isPresent, FileState.load]

/-- Claim C5: neighbour positions outside `[0, store_size)` are discarded
before indexing the chunk store, and every returned candidate is a
genuine in-bounds chunk of the store (the lookup never goes out of
bounds, even on a corrupt index returning arbitrary positions). -/
theorem invalid_positions_discarded
    (docs : List String) (I0 xs ys : List Int) (i : Int) (t : String) :
    (validPos docs.length i = false →
      candidatesOf docs (xs ++ i :: ys) = candidatesOf docs (xs ++ ys)) ∧
    (t ∈ candidatesOf docs I0 → ∃ k : Fin docs.length, t = docs.get k) := by
  constructor
  · intro hi
    simp [candidatesOf, List.filter_append, List.filter_cons, hi]
  · intro ht
    rcases List.mem_map.mp ht with ⟨j, hj, rfl⟩
    have hv := List.of_mem_filter hj
    have hv' : 0 ≤ j ∧ j < (docs.length : Int) := by
      simpa [validPos] using hv
    have hlt : j.toNat < docs.length := by omega
    refine ⟨⟨j.toNat, hlt⟩, ?_⟩
    rw [List.get_eq_getElem]
    exact List.getD_eq_getElem docs "" hlt

/-- Concrete instance of `invalid_positions_discarded`: position 7 is
discarded against a 2-chunk store, and the candidate produced from
position 1 is the store's chunk 1. -/
theorem invalid_positions_discarded_witness :
    (candidatesOf ["a", "b"] ([5] ++ (7 : Int) :: [1]) = candidatesOf ["a", "b"] ([5] ++ [1])) ∧
    ∃ k : Fin (["a", "b"] : List String).length, "b" = (["a", "b"] : List String).get k :=
  ⟨(invalid_positions_discarded ["a", "b"] [] [5] [1] 7 "x").1 (by decide),
   (invalid_positions_discarded ["a", "b"] [-1, 1] [] [] 0 "b").2 (by decide)⟩

/-- Result of one read attempt on a file: the content, or an exception. -/
inductive ReadResult (α : Type) where
  | ok : α → ReadResult α
  | err : String → ReadResult α
deriving DecidableEq

/-- A file of the input directory as seen by `load_and_process_files`:
its name (drives the extension dispatch), the outcome of reading it as
UTF-8 text, and the outcome of loading it with `PyPDFLoader` (a list of
page texts). -/
structure SrcFile where
  name : String
  txtRead : ReadResult String
  pdfRead : ReadResult (List String)

/-- Python's `str.strip()` whitespace test, on the characters the claims
exercise. -/
def isWhitespaceChar (c : Char) : Bool :=
  decide (c = ' ') || decide (c = '\n') || decide (c = '\t') || decide (c = '\r')

/-- Python's `str.strip()`: drop leading and trailing whitespace. -/
def stripStr (s : String) : String :=
  ⟨((s.data.dropWhile isWhitespaceChar).reverse.dropWhile isWhitespaceChar).reverse⟩

/-- Python's `str.endswith(sfx)`. -/
def endsWithStr (s sfx : String) : Bool := sfx.data.isSuffixOf s.data

/-- Per-file step of `load_and_process_files` (src/core/indexing.py lines
51-67): `.txt` files contribute their stripped text when non-empty,
`.pdf` files contribute their non-empty stripped pages, unsupported
extensions contribute nothing, and a read/parse exception is caught,
logged and contributes nothing. -/
def processFile (f : SrcFile) : List String :=
  if endsWithStr f.name ".txt" then
    match f.txtRead with
    | .ok text => if stripStr text = "" then [] else [stripStr text]
    | .err _ => []
  else if endsWithStr f.name ".pdf" then
    match f.pdfRead with
    | .ok pages => (pages.map stripStr).filter (fun c => decide (c ≠ ""))
    | .err _ => []
  else []

/-- The `all_texts` accumulator of `load_and_process_files`: texts of all
files, in directory-iteration order. -/
def allTexts (files : List SrcFile) : List String :=
  files.flatMap processFile

/-- Embeds `DocumentIndexer.load_and_process_files` (src/core/indexing.py
lines 40-78). `split` is the `RecursiveCharacterTextSplitter` collaborator
configured with `CHUNK_SIZE`/`CHUNK_OVERLAP`. -/
def load_and_process_files (split : String → List String) (files : List SrcFile) : List String :=
  let all_texts := allTexts files
  if all_texts.isEmpty then []
  else split (String.intercalate "\n\n" all_texts)

/-- Embeds `DocumentIndexer.index_documents` (src/core/indexing.py lines
80-105): `None` on empty input, otherwise a fresh flat index holding one
embedding per chunk, inserted in chunk order. The index is modelled by
its ordered vector list. -/
def index_documents (embed : String → Vec) (texts : List String) : Option (List Vec) :=
  if texts.isEmpty then none
  else some (texts.map embed)

/-- The on-disk artifact pair: `index.faiss` and `documents.pkl` under
`INDEX_DIR`; `none` models an absent file. -/
structure Disk where
  indexFile : Option (List Vec)
  docsFile : Option (List String)
deriving DecidableEq

/-- Embeds `DocumentIndexer.save_faiss_index` (src/core/indexing.py lines
107-123): overwrite the index blob, then the pickled chunk store. -/
def save_faiss_index (index : List Vec) (documents : List String) (_d : Disk) : Disk :=
  { indexFile := some index, docsFile := some documents }

/-- The disk states observable while `save_faiss_index` runs: before any
write, after `faiss.write_index` (index replaced, chunk store still the
old one), and after `pickle.dump` (both replaced). The writes are plain
sequential in-place writes, with no temporary files or renames. -/
def save_steps (index : List Vec) (documents : List String) (d : Disk) : List Disk :=
  [d, { d with indexFile := some index }, { indexFile := some index, docsFile := some documents }]

/-- Embeds `DocumentIndexer.run_indexing` (src/core/indexing.py lines
125-154): chunk, bail out on empty, embed and index, persist, report
success. -/
def run_indexing (split : String → List String) (embed : String → Vec)
    (files : List SrcFile) (d : Disk) : Bool × Disk :=
  let docs := load_and_process_files split files
  if docs.isEmpty then (false, d)
  else
    match index_documents embed docs with
    | none => (false, d)
    | some index => (true, save_faiss_index index docs d)

/-- Claim C6: if chunking yields no text, `run_indexing` returns `False`
and the on-disk pair (present or absent) is left exactly as it was; in
particular, a directory of only unsupported, empty or unreadable files
(every file contributing no text) produces no chunks. -/
theorem empty_chunking_build_fails_disk_unchanged
    (split : String → List String) (embed : String → Vec)
    (files : List SrcFile) (d : Disk) :
    (allTexts files = [] → load_and_process_files split files = []) ∧
    (load_and_process_files split files = [] →
      run_indexing split embed files d = (false, d)) := by
  constructor
  · intro h
    simp [load_and_process_files, h]
  · intro h
    simp [run_indexing, h]

/-- Concrete instance of `empty_chunking_build_fails_disk_unchanged`: a
directory holding one unsupported file leaves an existing pair unchanged
and reports failure. -/
theorem empty_chunking_build_fails_disk_unchanged_witness :
    run_indexing (fun s => [s]) (fun _ => [0])
      [{ name := "notes.docx", txtRead := .ok "text", pdfRead := .err "boom" }]
      { indexFile := some [[5]], docsFile := some ["old"] }
      = (false, { indexFile := some [[5]], docsFile := some ["old"] }) :=
  (empty_chunking_build_fails_disk_unchanged (fun s => [s]) (fun _ => [0])
      [{ name := "notes.docx", txtRead := .ok "text", pdfRead := .err "boom" }]
      { indexFile := some [[5]], docsFile := some ["old"] }).2
    ((empty_chunking_build_fails_disk_unchanged (fun s => [s]) (fun _ => [0])
      [{ name := "notes.docx", txtRead := .ok "text", pdfRead := .err "boom" }]
      { indexFile := some [[5]], docsFile := some ["old"] }).1 (by decide))

/-- Claim C9: during chunking, an unsupported extension is skipped, and a
read or parse failure on one file skips exactly that file: the texts
extracted from the surrounding files are unchanged. -/
theorem file_failures_skipped_others_processed
    (xs ys : List SrcFile) (f : SrcFile)
    (hskip :
      (endsWithStr f.name ".txt" = true ∧ ∃ e, f.txtRead = .err e) ∨
      (endsWithStr f.name ".txt" = false ∧ endsWithStr f.name ".pdf" = true ∧
        ∃ e, f.pdfRead = .err e) ∨
      (endsWithStr f.name ".txt" = false ∧ endsWithStr f.name ".pdf" = false)) :
    allTexts (xs ++ f :: ys) = allTexts xs ++ allTexts ys := by
  have hf : processFile f = [] := by
    rcases hskip with ⟨h1, e, h2⟩ | ⟨h1, h2, e, h3⟩ | ⟨h1, h2⟩
    · simp [processFile, h1, h2]
    · simp [processFile, h1, h2, h3]
    · simp [processFile, h1, h2]
  simp [allTexts, List.flatMap_append, hf]

/-- Concrete instance of `file_failures_skipped_others_processed`: an
unreadable `.txt` file between two good files is skipped while both
neighbours still contribute their text. -/
theorem file_failures_skipped_others_processed_witness :
    allTexts
      ([{ name := "a.txt", txtRead := .ok "A", pdfRead := .err "x" }] ++
        { name := "bad.txt", txtRead := .err "unreadable", pdfRead := .err "x" } ::
        [{ name := "c.txt", txtRead := .ok "C", pdfRead := .err "x" }])
      = allTexts [{ name := "a.txt", txtRead := .ok "A", pdfRead := .err "x" }] ++
        allTexts [{ name := "c.txt", txtRead := .ok "C", pdfRead := .err "x" }] :=
  file_failures_skipped_others_processed _ _ _
    (Or.inl ⟨by decide, "unreadable", rfl⟩)

/-- Claim C7 is refuted by this concrete run: starting from a complete old
pair, the state after `faiss.write_index` and before `pickle.dump` — a
state a reader (or a crash) can observe, since the writes are sequential
in-place writes with no temporary files or renames — holds the new index
blob next to the stale chunk store. -/
theorem save_pair_not_atomic_cex :
    ∃ s ∈ save_steps [[1]] ["new"] { indexFile := some [[0]], docsFile := some ["old"] },
      s.indexFile = some [[1]] ∧ s.docsFile = some ["old"] :=
  ⟨{ indexFile := some [[1]], docsFile := some ["old"] }, by decide, rfl, rfl⟩

/-- Claim C7 as amended: persistence is sequential, not atomic. The only
disk states observable while `save_faiss_index` runs are the untouched
previous pair, the new index blob next to the previous chunk store, and
the completed new pair — the chunk store is never updated before the
index blob — and a pipeline failure before persistence starts leaves the
previous pair untouched. -/
theorem save_pair_sequential_states
    (index : List Vec) (documents : List String) (d : Disk)
    (split : String → List String) (embed : String → Vec)
    (files : List SrcFile) (d' : Disk) :
    (∀ s ∈ save_steps index documents d,
      s = d ∨ s = { indexFile := some index, docsFile := d.docsFile } ∨
      s = { indexFile := some index, docsFile := some documents }) ∧
    (run_indexing split embed files d = (false, d') → d' = d) := by
  constructor
  · intro s hs
    simp only [save_steps, List.mem_cons, List.mem_singleton, List.not_mem_nil] at hs
    rcases hs with h | h | h | h
    · exact Or.inl h
    · exact Or.inr (Or.inl h)
    · exact Or.inr (Or.inr h)
    · exact absurd h (by simp)
  · intro h
    unfold run_indexing at h
    by_cases he : (load_and_process_files split files).isEmpty
    · simp [he] at h
      exact h.symm
    · simp [he, index_documents] at h

/-- Concrete instance of `save_pair_sequential_states`: the intermediate
state of a concrete save is one of the three listed states, and a build
over an unsupported-only directory leaves a concrete disk unchanged. -/
theorem save_pair_sequential_states_witness :
    ({ indexFile := some [[1]], docsFile := some ["old"] } : Disk)
        = ({ indexFile := some [[0]], docsFile := some ["old"] } : Disk) ∨
      ({ indexFile := some [[1]], docsFile := some ["old"] } : Disk)
        = { indexFile := some [[1]], docsFile := some ["old"] } ∨
      ({ indexFile := some [[1]], docsFile := some ["old"] } : Disk)
        = { indexFile := some [[1]], docsFile := some ["new"] } :=
  (save_pair_sequential_states [[1]] ["new"]
      { indexFile := some [[0]], docsFile := some ["old"] }
      (fun s => [s]) (fun _ => [0]) [{ name := "x.docx", txtRead := .ok "t", pdfRead := .ok [] }]
      { indexFile := some [[0]], docsFile := some ["old"] }).1
    { indexFile := some [[1]], docsFile := some ["old"] } (by decide)

/-- Claim C8: a successful build leaves on disk a chunk store and an index
with equally many entries, and entry `i` of the index is the embedding of
chunk `i` of the store. -/
theorem build_success_store_index_aligned
    (split : String → List String) (embed : String → Vec)
    (files : List SrcFile) (d d' : Disk)
    (hsucc : run_indexing split embed files d = (true, d')) :
    ∃ chunks index, d'.docsFile = some chunks ∧ d'.indexFile = some index ∧
      index.length = chunks.length ∧
      ∀ (i : Nat) (hi : i < chunks.length) (hj : i < index.length),
        index.get ⟨i, hj⟩ = embed (chunks.get ⟨i, hi⟩) := by
  unfold run_indexing at hsucc
  by_cases he : (load_and_process_files split files).isEmpty
  · simp [he] at hsucc
  · simp [he, index_documents] at hsucc
    have hd' : d' = save_faiss_index ((load_and_process_files split files).map embed)
        (load_and_process_files split files) d := hsucc.symm
    refine ⟨load_and_process_files split files,
      (load_and_process_files split files).map embed, ?_, ?_, by simp, ?_⟩
    · rw [hd']; rfl
    · rw [hd']; rfl
    · intro i hi hj
      simp [List.get_eq_getElem]

theorem toBatchesAux_flatten {α : Type} :
    ∀ (fuel : Nat) (xs : List α), xs.length ≤ fuel → (toBatchesAux fuel xs).flatten = xs := by
  intro fuel
  induction fuel with
  | zero =>
    intro xs h
    have hx : xs = [] := List.length_eq_zero.mp (Nat.le_zero.mp h)
    subst hx
    rfl
  | succ n ih =>
    intro xs h
    cases xs with
    | nil => rfl
    | cons x xs' =>
      have hb : batchSize = 32 := rfl
      have hlen : ((x :: xs').drop batchSize).length ≤ n := by
        rw [List.length_drop]
        simp only [List.length_cons] at h ⊢
        omega
      calc (toBatchesAux (n + 1) (x :: xs')).flatten
          = (x :: xs').take batchSize ++ (toBatchesAux n ((x :: xs').drop batchSize)).flatten := by
            rfl
        _ = (x :: xs').take batchSize ++ (x :: xs').drop batchSize := by rw [ih _ hlen]
        _ = x :: xs' := List.take_append_drop _ _

/-- The concatenation of the batches is the original pair list. -/
theorem toBatches_flatten {α : Type} (xs : List α) : (toBatches xs).flatten = xs :=
  toBatchesAux_flatten xs.length xs le_rfl

theorem toBatchesAux_length_le {α : Type} :
    ∀ (fuel : Nat) (xs : List α), ∀ b ∈ toBatchesAux fuel xs, b.length ≤ batchSize := by
  intro fuel
  induction fuel with
  | zero => intro xs b hb; simp [toBatchesAux] at hb
  | succ n ih =>
    intro xs b hb
    cases xs with
    | nil => simp [toBatchesAux] at hb
    | cons x xs' =>
      rcases List.mem_cons.mp hb with h | h
      · subst h
        simp
      · exact ih _ b h

/-- Every batch handed to the reranker has at most `batchSize` pairs. -/
theorem toBatches_length_le {α : Type} (xs : List α) :
    ∀ b ∈ toBatches xs, b.length ≤ batchSize :=
  toBatchesAux_length_le xs.length xs

/-- The batched scoring loop computes exactly one score per pair, in
order: it agrees with a single full-list `predict` call. -/
theorem batchedScores_eq (score : String → String → Score) (pairs : List (String × String)) :
    batchedScores score pairs = predict score pairs := by
  unfold batchedScores predict
  rw [List.flatMap_def]
  show ((toBatches pairs).map (fun b => b.map (fun p => score p.1 p.2))).flatten = _
  rw [← List.map_flatten, toBatches_flatten]

/-- All (query, candidate) pairs passed to `reranker.predict` across the
batched loop of `DocumentRetriever.retrieve_documents`
(src/core/retrieval.py lines 100-103), in call order: one `predict` call
per batch. -/
def coreRerankTrace (pairs : List (String × String)) : List (String × String) :=
  (toBatches pairs).flatten

/-- All (query, candidate) pairs passed to `reranker.predict` by the
legacy `retrieve_documents` (src/retrieval.py lines 52-64), in call
order: one full-list call (line 55), then, per batch, two `predict` calls
on the same batch, each followed by `scores.extend` (lines 59-64). -/
def legacyRerankTrace (pairs : List (String × String)) : List (String × String) :=
  pairs ++ (toBatches pairs).flatMap (fun b => b ++ b)

/-- Claim C3: in the consolidated orchestrator every (query, candidate)
pair is scored exactly once, in batches of at most 32 pairs; but the
legacy module scores a single pair three times (once in the up-front
full-list call and twice in the batch loop), so the claim fails on
src/retrieval.py. -/
theorem rerank_batch_scoring_trace :
    (∀ pairs : List (String × String),
      coreRerankTrace pairs = pairs ∧ ∀ b ∈ toBatches pairs, b.length ≤ batchSize) ∧
    legacyRerankTrace [("q", "d")] = [("q", "d"), ("q", "d"), ("q", "d")] :=
  ⟨fun pairs => ⟨toBatches_flatten pairs, toBatches_length_le pairs⟩, by decide⟩

/-- Concrete instance of `rerank_batch_scoring_trace`: one pair is scored
once by the core loop, in a single batch of size 1 ≤ 32. -/
theorem rerank_batch_scoring_trace_witness :
    coreRerankTrace [("a", "b")] = [("a", "b")] ∧
    ([("a", "b")] : List (String × String)).length ≤ batchSize :=
  ⟨(rerank_batch_scoring_trace.1 [("a", "b")]).1,
   (rerank_batch_scoring_trace.1 [("a", "b")]).2 [("a", "b")] (by decide)⟩

theorem length_insertDesc {α : Type} (x : α × Score) (l : List (α × Score)) :
    (insertDesc x l).length = l.length + 1 := by
  induction l with
  | nil => rfl
  | cons y ys ih =>
    unfold insertDesc
    split
    · rfl
    · simpa using ih

theorem length_pySortDesc {α : Type} (l : List (α × Score)) :
    (pySortDesc l).length = l.length := by
  induction l with
  | nil => rfl
  | cons x xs ih =>
    show (insertDesc x (pySortDesc xs)).length = xs.length + 1
    rw [length_insertDesc, ih]

theorem insertDesc_perm {α : Type} (x : α × Score) (l : List (α × Score)) :
    (insertDesc x l).Perm (x :: l) := by
  induction l with
  | nil => exact List.Perm.refl _
  | cons y ys ih =>
    unfold insertDesc
    split
    · exact List.Perm.refl _
    · exact (ih.cons y).trans (List.Perm.swap x y ys)

theorem pySortDesc_perm {α : Type} (l : List (α × Score)) :
    (pySortDesc l).Perm l := by
  induction l with
  | nil => exact List.Perm.refl _
  | cons x xs ih =>
    exact (insertDesc_perm x (pySortDesc xs)).trans (ih.cons x)

/-- Every candidate text produced by the position-to-chunk mapping is a
chunk of the store. -/
theorem candidatesOf_mem {docs : List String} {I0 : List Int} {t : String}
    (ht : t ∈ candidatesOf docs I0) : t ∈ docs := by
  rcases List.mem_map.mp ht with ⟨j, hj, rfl⟩
  have hv : 0 ≤ j ∧ j < (docs.length : Int) := by
    simpa [validPos] using List.of_mem_filter hj
  have hlt : j.toNat < docs.length := by omega
  rw [List.getD_eq_getElem docs "" hlt]
  exact List.getElem_mem hlt

/-- Distinct valid neighbour positions map to at most `docs.length`
candidates. -/
theorem candidatesOf_length_le (docs : List String) (I0 : List Int)
    (h : (I0.filter (validPos docs.length)).Nodup) :
    (candidatesOf docs I0).length ≤ docs.length := by
  unfold candidatesOf
  rw [List.length_map]
  have hmem : ∀ i ∈ I0.filter (validPos docs.length), 0 ≤ i ∧ i < (docs.length : Int) := by
    intro i hi
    simpa [validPos] using List.of_mem_filter hi
  have hnodup : ((I0.filter (validPos docs.length)).map Int.toNat).Nodup := by
    refine List.Nodup.map_on ?_ h
    intro x hx y hy hxy
    have hx' := hmem x hx
    have hy' := hmem y hy
    omega
  have hsub : ((I0.filter (validPos docs.length)).map Int.toNat).toFinset ⊆
      Finset.range docs.length := by
    intro a ha
    rcases List.mem_map.mp (List.mem_toFinset.mp ha) with ⟨i, hi, rfl⟩
    have := hmem i hi
    rw [Finset.mem_range]
    omega
  have hcard := Finset.card_le_card hsub
  rw [List.toFinset_card_of_nodup hnodup, Finset.card_range, List.length_map] at hcard
  exact hcard

/-- Claim C2: against a loaded index over a store of `N` chunks, and for
any positive `top_k`, `retrieve_documents` returns at most
`min(top_k, N)` results — a `top_k` beyond the available candidates
simply returns fewer results — and every result is a chunk text of the
store. The FAISS flat index returns pairwise-distinct valid neighbour
positions, which is the `Nodup` hypothesis. -/
theorem retrieve_length_le_min
    (embed : String → Vec) (search : Vec → Nat → List Int)
    (docs : List String) (rk : Option (String → String → Score))
    (multiplier : Nat) (query : String) (top_k : Nat) (rerank : Bool)
    (_hpos : 0 < top_k)
    (hnodup : ((search (embed query) (top_k * multiplier)).filter (validPos docs.length)).Nodup) :
    (retrieve_documents ⟨embed, some ⟨search⟩, some docs, rk⟩
        multiplier query top_k rerank).length ≤ min top_k docs.length ∧
    ∀ t ∈ retrieve_documents ⟨embed, some ⟨search⟩, some docs, rk⟩ multiplier query top_k rerank,
      t ∈ docs := by
  have hcle := candidatesOf_length_le docs (search (embed query) (top_k * multiplier)) hnodup
  simp only [retrieve_documents]
  rcases rk with _ | rk
  all_goals dsimp only
  · constructor
    · rw [List.length_take]
      exact min_le_min le_rfl hcle
    · intro t ht
      exact candidatesOf_mem (List.take_subset _ _ ht)
  · by_cases hbr :
      (rerank && !(candidatesOf docs (search (embed query) (top_k * multiplier))).isEmpty) = true
    · rw [if_pos hbr]
      constructor
      · rw [List.length_take, List.length_map, length_pySortDesc, List.length_zip,
          batchedScores_eq, predict, List.length_map, List.length_map]
        simpa using min_le_min (le_refl top_k) hcle
      · intro t ht
        have ht' := List.take_subset _ _ ht
        rcases List.mem_map.mp ht' with ⟨p, hp, rfl⟩
        have hpz := (pySortDesc_perm _).mem_iff.mp hp
        obtain ⟨p1, p2⟩ := p
        exact candidatesOf_mem (List.of_mem_zip hpz).1
    · rw [if_neg hbr]
      constructor
      · rw [List.length_take]
        exact min_le_min le_rfl hcle
      · intro t ht
        exact candidatesOf_mem (List.take_subset _ _ ht)

/-- Concrete instance of `retrieve_length_le_min`: a 2-chunk store queried
with `top_k = 1` (over-fetch returns positions [1, 0, 5, -1], the invalid
5 and -1 being dropped) yields at most `min 1 2` results, and the result
"b" is a chunk of the store. -/
theorem retrieve_length_le_min_witness :
    (retrieve_documents
        ⟨fun _ => [], some ⟨fun _ _ => [1, 0, 5, -1]⟩, some ["a", "b"], some fun _ _ => 0⟩
        3 "q" 1 true).length ≤ min 1 (["a", "b"] : List String).length ∧
    "b" ∈ (["a", "b"] : List String) :=
  ⟨(retrieve_length_le_min (fun _ => []) (fun _ _ => [1, 0, 5, -1]) ["a", "b"]
      (some fun _ _ => 0) 3 "q" 1 true (by decide) (by decide)).1,
   (retrieve_length_le_min (fun _ => []) (fun _ _ => [1, 0, 5, -1]) ["a", "b"]
      (some fun _ _ => 0) 3 "q" 1 true (by decide) (by decide)).2 "b" (by decide)⟩

/-- Concrete instance of `build_success_store_index_aligned`: a one-file
directory builds a one-chunk store aligned with a one-vector index. -/
theorem build_success_store_index_aligned_witness :
    ∃ chunks index,
      ({ indexFile := some [[7]], docsFile := some ["hi"] } : Disk).docsFile = some chunks ∧
      ({ indexFile := some [[7]], docsFile := some ["hi"] } : Disk).indexFile = some index ∧
      index.length = chunks.length ∧
      ∀ (i : Nat) (hi : i < chunks.length) (hj : i < index.length),
        index.get ⟨i, hj⟩ = (fun _ => ([7] : Vec)) (chunks.get ⟨i, hi⟩) :=
  build_success_store_index_aligned (fun s => [s]) (fun _ => [7])
    [{ name := "a.txt", txtRead := .ok "hi", pdfRead := .err "e" }]
    { indexFile := none, docsFile := none }
    { indexFile := some [[7]], docsFile := some ["hi"] } (by decide)

/-- The spec's order on re-ranked candidates, written as triples
(original distance rank, chunk text, reranker score): `a` comes no later
than `b` when `a` scores strictly higher, or they score equally and `a`
has the earlier distance rank. -/
def specBefore (a b : Nat × String × Score) : Bool :=
  decide (b.2.2 < a.2.2) || (decide (a.2.2 = b.2.2) && decide (a.1 ≤ b.1))

def insertRanked (x : Nat × String × Score) :
    List (Nat × String × Score) → List (Nat × String × Score)
  | [] => [x]
  | y :: l => if specBefore x y then x :: y :: l else y :: insertRanked x l

/-- The spec-side description of step 5 of §4.3: sort all candidates by
descending score, breaking ties by original distance rank. Stated as an
insertion sort by the total order `specBefore`, whose result on
distinct-rank inputs is the unique sorted arrangement. -/
def specSortRanked : List (Nat × String × Score) → List (Nat × String × Score)
  | [] => []
  | x :: l => insertRanked x (specSortRanked l)

/-- Candidates tagged with their distance rank and reranker score. -/
def rankTagged (query : String) (rk : String → String → Score) (cands : List String) :
    List (Nat × String × Score) :=
  cands.enum.map (fun p => (p.1, p.2, rk query p.2))

/-- Forgetting the rank tag. -/
def dropRank (t : Nat × String × Score) : String × Score := (t.2.1, t.2.2)

theorem insertRanked_perm (x : Nat × String × Score) (l : List (Nat × String × Score)) :
    (insertRanked x l).Perm (x :: l) := by
  induction l with
  | nil => exact List.Perm.refl _
  | cons y ys ih =>
    unfold insertRanked
    split
    · exact List.Perm.refl _
    · exact (ih.cons y).trans (List.Perm.swap x y ys)

theorem specSortRanked_perm (l : List (Nat × String × Score)) :
    (specSortRanked l).Perm l := by
  induction l with
  | nil => exact List.Perm.refl _
  | cons x xs ih =>
    exact (insertRanked_perm x (specSortRanked xs)).trans (ih.cons x)

theorem specBefore_comp_total (a1 b1 : Nat) (a3 b3 : Int) :
    (b3 < a3 ∨ (a3 = b3 ∧ a1 ≤ b1)) ∨ (a3 < b3 ∨ (b3 = a3 ∧ b1 ≤ a1)) := by
  omega

theorem specBefore_total (a b : Nat × String × Score) :
    specBefore a b = true ∨ specBefore b a = true := by
  obtain ⟨a1, a2, a3⟩ := a
  obtain ⟨b1, b2, b3⟩ := b
  simp only [specBefore, Bool.or_eq_true, Bool.and_eq_true, decide_eq_true_eq]
  exact specBefore_comp_total a1 b1 a3 b3

theorem specBefore_comp_trans (a1 b1 c1 : Nat) (a3 b3 c3 : Int)
    (hab : b3 < a3 ∨ (a3 = b3 ∧ a1 ≤ b1)) (hbc : c3 < b3 ∨ (b3 = c3 ∧ b1 ≤ c1)) :
    c3 < a3 ∨ (a3 = c3 ∧ a1 ≤ c1) := by
  omega

theorem specBefore_trans {a b c : Nat × String × Score}
    (hab : specBefore a b = true) (hbc : specBefore b c = true) :
    specBefore a c = true := by
  obtain ⟨a1, a2, a3⟩ := a
  obtain ⟨b1, b2, b3⟩ := b
  obtain ⟨c1, c2, c3⟩ := c
  simp only [specBefore, Bool.or_eq_true, Bool.and_eq_true, decide_eq_true_eq] at *
  exact specBefore_comp_trans a1 b1 c1 a3 b3 c3 hab hbc

theorem pairwise_insertRanked {x : Nat × String × Score} {l : List (Nat × String × Score)}
    (hl : l.Pairwise (fun a b => specBefore a b = true)) :
    (insertRanked x l).Pairwise (fun a b => specBefore a b = true) := by
  induction l with
  | nil => simp [insertRanked]
  | cons y ys ih =>
    rcases List.pairwise_cons.mp hl with ⟨hy, hys⟩
    unfold insertRanked
    split
    case isTrue h =>
      refine List.pairwise_cons.mpr ⟨?_, hl⟩
      intro z hz
      rcases List.mem_cons.mp hz with rfl | hz'
      · exact h
      · exact specBefore_trans h (hy z hz')
    case isFalse h =>
      have hyx : specBefore y x = true := by
        rcases specBefore_total x y with h' | h'
        · exact absurd h' h
        · exact h'
      refine List.pairwise_cons.mpr ⟨?_, ih hys⟩
      intro z hz
      have hz2 : z = x ∨ z ∈ ys := by
        simpa using (insertRanked_perm x ys).mem_iff.mp hz
      rcases hz2 with rfl | hz'
      · exact hyx
      · exact hy z hz'

theorem pairwise_specSortRanked (l : List (Nat × String × Score)) :
    (specSortRanked l).Pairwise (fun a b => specBefore a b = true) := by
  induction l with
  | nil => simp [specSortRanked]
  | cons x xs ih => exact pairwise_insertRanked ih

theorem insertRanked_map_dropRank (x : Nat × String × Score)
    (l : List (Nat × String × Score)) (hx : ∀ y ∈ l, x.1 < y.1) :
    (insertRanked x l).map dropRank = insertDesc (dropRank x) (l.map dropRank) := by
  induction l with
  | nil => rfl
  | cons y ys ih =>
    have hxy : x.1 < y.1 := hx y (List.mem_cons_self y ys)
    have hcomp : ∀ (x1 y1 : Nat) (xs ys : Int), x1 < y1 →
        ((ys < xs ∨ (xs = ys ∧ x1 ≤ y1)) ↔ ys ≤ xs) := by
      intro x1 y1 xs ys h
      omega
    have hcond : specBefore x y = true ↔ y.2.2 ≤ x.2.2 := by
      simp only [specBefore, Bool.or_eq_true, Bool.and_eq_true, decide_eq_true_eq]
      exact hcomp x.1 y.1 x.2.2 y.2.2 hxy
    unfold insertRanked
    by_cases hle : y.2.2 ≤ x.2.2
    · rw [if_pos (hcond.mpr hle)]
      simp [insertDesc, dropRank, hle]
    · rw [if_neg (fun hh => hle (hcond.mp hh))]
      simp only [List.map_cons]
      rw [ih (fun z hz => hx z (List.mem_cons_of_mem y hz))]
      simp [insertDesc, dropRank, hle]

theorem specSortRanked_map_dropRank (l : List (Nat × String × Score))
    (hl : l.Pairwise (fun a b => a.1 < b.1)) :
    (specSortRanked l).map dropRank = pySortDesc (l.map dropRank) := by
  induction l with
  | nil => rfl
  | cons x xs ih =>
    rcases List.pairwise_cons.mp hl with ⟨hx, hxs⟩
    show (insertRanked x (specSortRanked xs)).map dropRank
        = insertDesc (dropRank x) (pySortDesc (xs.map dropRank))
    rw [insertRanked_map_dropRank x _
        (fun y hy => hx y ((specSortRanked_perm xs).mem_iff.mp hy)), ih hxs]

theorem enumFrom_pairwise_fst_lt {α : Type} (n : Nat) (l : List α) :
    (List.enumFrom n l).Pairwise (fun a b => a.1 < b.1) := by
  induction l generalizing n with
  | nil => simp
  | cons x xs ih =>
    rw [List.enumFrom_cons]
    refine List.pairwise_cons.mpr ⟨?_, ih (n + 1)⟩
    intro y hy
    obtain ⟨i, a⟩ := y
    have h := (List.mem_enumFrom hy).1
    show n < i
    omega

theorem enumFrom_map_snd {α β : Type} (g : α → β) :
    ∀ (n : Nat) (l : List α), (List.enumFrom n l).map (fun p => g p.2) = l.map g := by
  intro n l
  induction l generalizing n with
  | nil => rfl
  | cons x xs ih =>
    rw [List.enumFrom_cons]
    simp only [List.map_cons]
    rw [ih]

theorem rankTagged_pairwise (query : String) (rk : String → String → Score)
    (cands : List String) :
    (rankTagged query rk cands).Pairwise (fun a b => a.1 < b.1) :=
  List.Pairwise.map _ (fun _ _ h => h) (enumFrom_pairwise_fst_lt 0 cands)

theorem rankTagged_map_dropRank (query : String) (rk : String → String → Score)
    (cands : List String) :
    (rankTagged query rk cands).map dropRank = cands.map (fun d => (d, rk query d)) := by
  unfold rankTagged
  rw [List.map_map]
  exact enumFrom_map_snd (fun d => (d, rk query d)) 0 cands

theorem zip_self_map {α β : Type} (f : α → β) (l : List α) :
    l.zip (l.map f) = l.map (fun x => (x, f x)) := by
  induction l with
  | nil => rfl
  | cons x xs ih => simp [ih]

theorem code_zip_eq (query : String) (rk : String → String → Score) (cands : List String) :
    cands.zip (batchedScores rk (cands.map (fun doc => (query, doc)))) =
      cands.map (fun d => (d, rk query d)) := by
  rw [batchedScores_eq]
  unfold predict
  rw [List.map_map]
  exact zip_self_map (fun d => rk query d) cands

/-- Claim C4: with reranking enabled, a reranker configured and a
non-empty candidate list, `retrieve_documents` returns exactly the
spec-described list: the over-fetched candidates sorted by descending
reranker score with ties broken by original distance rank (the stable
order), truncated to the first `top_k`; the spec-side sorted list is a
permutation of the rank-tagged candidates and is strictly ordered by
(score descending, rank ascending). -/
theorem rerank_sorted_stable_truncated
    (embed : String → Vec) (search : Vec → Nat → List Int) (docs : List String)
    (rk : String → String → Score) (multiplier : Nat) (query : String) (top_k : Nat)
    (hcand : candidatesOf docs (search (embed query) (top_k * multiplier)) ≠ []) :
    retrieve_documents ⟨embed, some ⟨search⟩, some docs, some rk⟩ multiplier query top_k true
        = ((specSortRanked (rankTagged query rk
              (candidatesOf docs (search (embed query) (top_k * multiplier))))).map
            (fun t => t.2.1)).take top_k ∧
    (specSortRanked (rankTagged query rk
        (candidatesOf docs (search (embed query) (top_k * multiplier))))).Perm
      (rankTagged query rk (candidatesOf docs (search (embed query) (top_k * multiplier)))) ∧
    (specSortRanked (rankTagged query rk
        (candidatesOf docs (search (embed query) (top_k * multiplier))))).Pairwise
      (fun a b => b.2.2 < a.2.2 ∨ (a.2.2 = b.2.2 ∧ a.1 < b.1)) := by
  refine ⟨?_, specSortRanked_perm _, ?_⟩
  · simp only [retrieve_documents]
    rw [if_pos (by simp [hcand]), code_zip_eq,
      ← rankTagged_map_dropRank query rk (candidatesOf docs (search (embed query) (top_k * multiplier))),
      ← specSortRanked_map_dropRank _ (rankTagged_pairwise query rk _), List.map_map]
    rfl
  · have h1 := pairwise_specSortRanked
      (rankTagged query rk (candidatesOf docs (search (embed query) (top_k * multiplier))))
    have hneq :
        (specSortRanked (rankTagged query rk
          (candidatesOf docs (search (embed query) (top_k * multiplier))))).Pairwise
          (fun a b => a.1 ≠ b.1) :=
      ((specSortRanked_perm _).pairwise_iff (fun h => h.symm)).mpr
        ((rankTagged_pairwise query rk _).imp (fun h => Nat.ne_of_lt h))
    refine (h1.and hneq).imp ?_
    intro a b hab
    rcases hab with ⟨hb, hne⟩
    simp only [specBefore, Bool.or_eq_true, Bool.and_eq_true, decide_eq_true_eq] at hb
    rcases hb with h | ⟨hs, hr⟩
    · exact Or.inl h
    · exact Or.inr ⟨hs, lt_of_le_of_ne hr hne⟩

/-- Concrete instance of `rerank_sorted_stable_truncated`: two candidates
scored 1 and 2 are returned in descending-score order. -/
theorem rerank_sorted_stable_truncated_witness :
    retrieve_documents
        ⟨fun _ => [], some ⟨fun _ _ => [0, 1]⟩, some ["aa", "bb"],
          some fun _ d => if d = "aa" then (1 : Score) else 2⟩ 3 "q" 2 true
      = ((specSortRanked (rankTagged "q" (fun _ d => if d = "aa" then (1 : Score) else 2)
            (candidatesOf ["aa", "bb"] [0, 1]))).map (fun t => t.2.1)).take 2 ∧
    (specSortRanked (rankTagged "q" (fun _ d => if d = "aa" then (1 : Score) else 2)
        (candidatesOf ["aa", "bb"] [0, 1]))).Perm
      (rankTagged "q" (fun _ d => if d = "aa" then (1 : Score) else 2)
        (candidatesOf ["aa", "bb"] [0, 1])) ∧
    (specSortRanked (rankTagged "q" (fun _ d => if d = "aa" then (1 : Score) else 2)
        (candidatesOf ["aa", "bb"] [0, 1]))).Pairwise
      (fun a b => b.2.2 < a.2.2 ∨ (a.2.2 = b.2.2 ∧ a.1 < b.1)) :=
  rerank_sorted_stable_truncated (fun _ => []) (fun _ _ => [0, 1]) ["aa", "bb"]
    (fun _ d => if d = "aa" then (1 : Score) else 2) 3 "q" 2 (by decide)
